import Mathlib

/-!
Verification of the cognillm stage-progression engine.

Shallow embedding of the core stage-progression code:
  - `src/lib/stage_manager/types.py` (Stage, EvaluationMethods, TableData, EvaluationConfig)
  - `src/lib/stage_manager/evaluators/evaluator.py` (Evaluator)
  - `src/lib/stage_manager/stage_manager.py` (StageManager)
  - `src/lib/base/ai.py` (Client: conversation history, send_message, reset_conversation)

Modelling conventions:
  - Python's mutable objects become explicit state passing: each operation takes
    the state and returns the updated state.
  - Python exceptions become `Except PyError`.  No property here reads object
    state after an exception, so an error result carries no post-state.
  - The Azure completion endpoint is an oracle parameter
    `Oracle : List ChatMessage → Option String` (`none` models "no completion
    choices"/transport failure).  `json.loads` is a parameter
    `Loads : String → Option JsonValue` (`none` models `JSONDecodeError`);
    theorems quantify over both.
  - Each evaluator operation also returns the list of completion-service
    requests (eval prompts) it issued, as a ghost trace, so that "no service
    call is made for X" is statable.
-/

namespace CogniLLM

/-! ## JSON values and Python truthiness -/

/-- A parsed JSON value, as produced by `json.loads`.  Numbers are modelled as
integers (no claim involves fractional numbers).  An `obj` is the entry list of
the Python dict produced by the parser, so its keys are distinct. -/
inductive JsonValue where
  | null : JsonValue
  | bool (b : Bool) : JsonValue
  | num (n : Int) : JsonValue
  | str (s : String) : JsonValue
  | arr (xs : List JsonValue) : JsonValue
  | obj (fields : List (String × JsonValue)) : JsonValue

/-- Python truthiness (`bool(v)`) of a parsed JSON value. -/
def pyTruthy : JsonValue → Bool
  | .null => false
  | .bool b => b
  | .num n => n != 0
  | .str s => s != ""
  | .arr xs => !xs.isEmpty
  | .obj fields => !fields.isEmpty

/-- Python `dict.get(key)`: the value bound to `key`, or `None` when absent. -/
def dictGet (fields : List (String × JsonValue)) (key : String) : JsonValue :=
  match fields.lookup key with
  | some v => v
  | none => .null

/-- Python exceptions that the modelled code can raise. -/
inductive PyError where
  | valueError (msg : String) : PyError
  | notImplementedError (msg : String) : PyError
  | attributeError (msg : String) : PyError
  | keyError (msg : String) : PyError
deriving Repr, DecidableEq

/-! ## Stage taxonomy (`types.py`) -/

/-- `Stage`: the first three stages of the Motivational Interviewing framework. -/
inductive Stage where
  | pre_contemplation : Stage
  | contemplation : Stage
  | preparation : Stage
deriving Repr, DecidableEq

/-- `Stage.next_stage`: the next stage in the progression, `none` for the final
stage (`stage_progression` dict in the source). -/
def Stage.next_stage : Stage → Option Stage
  | .pre_contemplation => some .contemplation
  | .contemplation => some .preparation
  | .preparation => none

/-- `Stage.is_final_stage`: true iff `next_stage()` is `None`. -/
def Stage.is_final_stage (s : Stage) : Bool :=
  s.next_stage.isNone

/-- Ordinal position of a stage in the fixed order (not a source method; used
to state ordering properties). -/
def Stage.ord : Stage → Nat
  | .pre_contemplation => 0
  | .contemplation => 1
  | .preparation => 2

/-- `EvaluationMethods` enum. -/
inductive EvaluationMethods where
  | objective_completion : EvaluationMethods
  | table_comparison : EvaluationMethods
deriving Repr, DecidableEq

/-- `TableData`: table structure for the table-comparison method. -/
structure TableData where
  costs : List String
  rewards : List String
deriving Repr, DecidableEq

/-- The `data` field of `EvaluationConfig`: `Union[List[str], TableData]` in the
source, modelled as a tagged sum. -/
inductive EvalData where
  | objectives (objectives : List String) : EvalData
  | table (t : TableData) : EvalData

/-- `EvaluationConfig`: an evaluation method plus its data. -/
structure EvaluationConfig where
  method : EvaluationMethods
  data : EvalData

/-- `EvaluationConfig.from_objectives`. -/
def EvaluationConfig.from_objectives (objectives : List String) : EvaluationConfig :=
  ⟨.objective_completion, .objectives objectives⟩

/-- `EvaluationConfig.from_table`. -/
def EvaluationConfig.from_table (costs rewards : List String) : EvaluationConfig :=
  ⟨.table_comparison, .table ⟨costs, rewards⟩⟩

/-! ## Completion client (`ai.py`) -/

/-- One entry of a `Client`'s `chat_prompt` list. -/
structure ChatMessage where
  role : String
  content : String
deriving Repr, DecidableEq

/-- The Azure OpenAI `Client`, reduced to the state the core reads and writes:
the stored original system prompt and the conversation history `chat_prompt`. -/
structure Client where
  original_system_prompt : String
  chat_prompt : List ChatMessage
deriving Repr, DecidableEq

/-- `Client.__init__` with no `history` argument: history is the singleton
system message. -/
def Client.init (system_prompt : String) : Client :=
  ⟨system_prompt, [⟨"system", system_prompt⟩]⟩

/-- The completion service: given the full conversation, produce the reply
content.  `none` models the "no completion choices / empty content" failure
and transport errors. -/
abbrev Oracle := List ChatMessage → Option String

/-- `json.loads`, abstracted: `none` models `json.JSONDecodeError`. -/
abbrev Loads := String → Option JsonValue

/-- `Client.send_message`: append the user message, call the service on the
whole conversation, raise `ValueError` when no (or empty) content comes back,
otherwise append the assistant reply and return the content. -/
def Client.send_message (oracle : Oracle) (c : Client) (message : String) :
    Except PyError (String × Client) :=
  let c1 : Client := { c with chat_prompt := c.chat_prompt ++ [⟨"user", message⟩] }
  match oracle c1.chat_prompt with
  | none => .error (.valueError "No completion choices returned")
  | some content =>
      if content = "" then .error (.valueError "No completion choices returned")
      else .ok (content, { c1 with chat_prompt := c1.chat_prompt ++ [⟨"assistant", content⟩] })

/-- `Client.reset_conversation`: reset history to only the original system
prompt. -/
def Client.reset_conversation (c : Client) : Client :=
  { c with chat_prompt := [⟨"system", c.original_system_prompt⟩] }

/-! ## `json.dumps` for the payloads the evaluator serializes -/

/-- JSON escaping of one character, as `json.dumps` renders strings. -/
def jsonEscapeChar (c : Char) : String :=
  if c = '"' then "\\\""
  else if c = '\\' then "\\\\"
  else if c = '\n' then "\\n"
  else if c = '\t' then "\\t"
  else if c = '\r' then "\\r"
  else String.singleton c

/-- JSON escaping of a string body. -/
def jsonEscape (s : String) : String :=
  String.join (s.data.map jsonEscapeChar)

/-- `json.dumps` of a single string. -/
def dumpsString (s : String) : String :=
  "\"" ++ jsonEscape s ++ "\""

/-- `json.dumps` of a list of strings (default separators). -/
def dumpsStringList (xs : List String) : String :=
  "[" ++ String.intercalate ", " (xs.map dumpsString) ++ "]"

/-! ## Evaluator (`evaluator.py`) -/

/-- The `Evaluator`'s state: one `Client` per evaluation method
(`self.ai_clients`).  Prompt-file loading in `Evaluator.__init__` is file I/O
outside the modelled core; the clients start with whatever system prompts were
loaded. -/
structure Evaluator where
  objective_client : Client
  table_client : Client
deriving Repr, DecidableEq

instance : Inhabited Evaluator := ⟨⟨Client.init "", Client.init ""⟩⟩

/-- `Evaluator._get_eval_result`: parse the reply; on `JSONDecodeError` return
`None`; a missing/falsy `result` field yields `None`; otherwise return the
`result` value.  The `chain_of_thought` check only logs.  When the reply parses
to a non-dict, `response.get` raises `AttributeError` (uncaught in the
source). -/
def Evaluator.get_eval_result (loads : Loads) (response : String) :
    Except PyError (Option JsonValue) :=
  match loads response with
  | none => .ok none
  | some (.obj fields) =>
      if pyTruthy (dictGet fields "result") then .ok (some (dictGet fields "result"))
      else .ok none
  | some _ => .error (.attributeError "no attribute get")

/-- The f-string eval prompt built by `evaluate_objective_completion`. -/
def evalPrompt (objective_str history_str : String) : String :=
  "\n        Objective: " ++ objective_str ++ "\n        History: " ++ history_str ++ "\n        "

/-- `Evaluator.evaluate_objective_completion`: serialize objective and history,
send one message on the objective-completion client, validate the reply, then
reset that client's conversation and return the validation result.  Also
returns the ghost trace of service requests issued (always exactly the one
eval prompt). -/
def Evaluator.evaluate_objective_completion (oracle : Oracle) (loads : Loads)
    (e : Evaluator) (objective : List String) (history : List String) :
    List String × Except PyError (Option JsonValue × Evaluator) :=
  let prompt := evalPrompt (dumpsStringList objective) (dumpsStringList history)
  match e.objective_client.send_message oracle prompt with
  | .error err => ([prompt], .error err)
  | .ok (response, c1) =>
      match Evaluator.get_eval_result loads response with
      | .error err => ([prompt], .error err)
      | .ok r => ([prompt], .ok (r, { e with objective_client := c1.reset_conversation }))

/-- `Evaluator.evaluate_table_comparison`: unconditionally raises
`NotImplementedError`.  The `table` argument is untyped in effect (the body
never touches it), hence the type parameter. -/
def Evaluator.evaluate_table_comparison {α : Type} (_table : α) (_history : List String) :
    Except PyError (Option JsonValue) :=
  .error (.notImplementedError "Table Comparison method not implemented")

/-! ## Stage manager (`stage_manager.py`) -/

/-- One value of the `stage_history` dict: start index (inclusive), end index
(exclusive; `-1` while the record is open), and the messages recorded during
the visit. -/
structure StageRecord where
  start : Int
  «end» : Int
  messages : List String
deriving Repr, DecidableEq

/-- The `StageManager` state.  `stage_config` and `stage_history` are Python
dicts, modelled as functions into `Option` (the key type `Stage` has three
values). -/
structure StageManager where
  stage_config : Stage → Option EvaluationConfig
  current_stage : Stage
  current_message_index : Int
  evaluator : Evaluator
  stage_history : Stage → Option StageRecord

/-- Point update of a `stage_history` dict. -/
def updateHist (h : Stage → Option StageRecord) (s : Stage) (r : StageRecord) :
    Stage → Option StageRecord :=
  fun t => if t = s then some r else h t

/-- `StageManager.__init__`: store the config, current stage and index, and
start `stage_history` as a one-entry dict holding an open record for the
initial stage. -/
def StageManager.init (stage_config : Stage → Option EvaluationConfig)
    (evaluator : Evaluator) (initial_stage : Stage) (message_index : Int) :
    StageManager :=
  { stage_config := stage_config
    current_stage := initial_stage
    current_message_index := message_index
    evaluator := evaluator
    stage_history := updateHist (fun _ => none) initial_stage ⟨message_index, -1, []⟩ }

/-- `StageManager.advance_stage`: `False` at the final stage; `ValueError` when
the next stage is not configured; otherwise close the current record at the
current message index, open a record for the next stage, and move to it.
(The `stage_history[current]` dict access raises `KeyError` when absent.) -/
def StageManager.advance_stage (m : StageManager) : Except PyError (Bool × StageManager) :=
  if m.current_stage.is_final_stage then .ok (false, m)
  else
    match m.current_stage.next_stage with
    | none => .ok (false, m)  -- unreachable: is_final_stage is next_stage.isNone
    | some next_stage =>
        match m.stage_config next_stage with
        | none => .error (.valueError "Next stage is not configured in stage_config")
        | some _ =>
            match m.stage_history m.current_stage with
            | none => .error (.keyError "current stage not in stage_history")
            | some rec =>
                let hist1 := updateHist m.stage_history m.current_stage
                  ⟨rec.start, m.current_message_index, rec.messages⟩
                let hist2 := updateHist hist1 next_stage
                  ⟨m.current_message_index, -1, []⟩
                .ok (true, { m with stage_history := hist2, current_stage := next_stage })

/-- `StageManager.evaluate_stage`: look up the current stage's config and
messages and dispatch on the method.  The source's final `else: raise
ValueError` branch is unreachable over the two-constructor enum.  In the
objective branch with table-shaped data, `json.dumps(TableData)` raises
`TypeError`, which the source catches and re-raises as `ValueError` before any
service call.  First component: the ghost trace of service requests issued. -/
def StageManager.evaluate_stage (oracle : Oracle) (loads : Loads) (m : StageManager) :
    List String × Except PyError (Option JsonValue × StageManager) :=
  match m.stage_config m.current_stage with
  | none => ([], .error (.keyError "current stage not in stage_config"))
  | some evaluation_config =>
      match m.stage_history m.current_stage with
      | none => ([], .error (.keyError "current stage not in stage_history"))
      | some rec =>
          match evaluation_config.method with
          | .objective_completion =>
              match evaluation_config.data with
              | .objectives objective =>
                  match m.evaluator.evaluate_objective_completion oracle loads objective rec.messages with
                  | (calls, .error err) => (calls, .error err)
                  | (calls, .ok (r, ev)) => (calls, .ok (r, { m with evaluator := ev }))
              | .table _ =>
                  ([], .error (.valueError "Error converting objective or history to string"))
          | .table_comparison =>
              match Evaluator.evaluate_table_comparison evaluation_config.data rec.messages with
              | .error err => ([], .error err)
              | .ok r => ([], .ok (r, m))

/-- `StageManager.handle_message_add`: append the message to the current
stage's record, increment the message index, evaluate the stage, and advance
when the evaluation result `is True` (a `None` result only logs; any other
result, the Python identity test fails and nothing happens). -/
def StageManager.handle_message_add (oracle : Oracle) (loads : Loads)
    (m : StageManager) (message : String) :
    List String × Except PyError StageManager :=
  match m.stage_history m.current_stage with
  | none => ([], .error (.keyError "current stage not in stage_history"))
  | some rec =>
      let m1 : StageManager :=
        { m with
          current_message_index := m.current_message_index + 1
          stage_history := updateHist m.stage_history m.current_stage
            ⟨rec.start, rec.«end», rec.messages ++ [message]⟩ }
      match m1.evaluate_stage oracle loads with
      | (calls, .error err) => (calls, .error err)
      | (calls, .ok (result, m2)) =>
          match result with
          | some (.bool true) =>
              match m2.advance_stage with
              | .error err => (calls, .error err)
              | .ok (_, m3) => (calls, .ok m3)
          | _ => (calls, .ok m2)

/-! ## Stated properties of the stage-history bookkeeping -/

/-- Effective right endpoint of a record's `[start, end)` range: the current
stage's open record is treated as extending to the current message index. -/
def rangeEndP (cur : Stage) (idx : Int) (s : Stage) (r : StageRecord) : Int :=
  if s = cur then idx else r.«end»

/-- The records' ranges exactly tile `[i0, idx)`: every index in the interval
is covered (no gaps), only such indexes are covered, and no index is covered
by two different stages' records (no overlaps). -/
def TilesP (i0 : Int) (cur : Stage) (idx : Int) (hist : Stage → Option StageRecord) : Prop :=
  (∀ j : Int, (i0 ≤ j ∧ j < idx) ↔
      ∃ s r, hist s = some r ∧ r.start ≤ j ∧ j < rangeEndP cur idx s r)
  ∧ ∀ s r s' r' (j : Int), hist s = some r → hist s' = some r' →
      r.start ≤ j → j < rangeEndP cur idx s r →
      r'.start ≤ j → j < rangeEndP cur idx s' r' → s = s'

/-- Ranges are monotonically non-decreasing in stage ordinal: a strictly later
stage's record starts no earlier, in fact at or after the earlier range's
effective end. -/
def MonoP (cur : Stage) (idx : Int) (hist : Stage → Option StageRecord) : Prop :=
  ∀ s r s' r', hist s = some r → hist s' = some r' → s.ord < s'.ord →
    r.start ≤ r'.start ∧ rangeEndP cur idx s r ≤ r'.start

/-- Exactly one record carries the `-1` open sentinel: the current stage's
record is open, and no other stage's record has `end = -1`. -/
def OneOpenP (cur : Stage) (hist : Stage → Option StageRecord) : Prop :=
  (∃ r, hist cur = some r ∧ r.«end» = -1)
  ∧ ∀ s r, hist s = some r → r.«end» = -1 → s = cur

/-- `TilesP` read off a `StageManager`, from the initial offset `i0`. -/
def StageManager.Tiles (i0 : Int) (m : StageManager) : Prop :=
  TilesP i0 m.current_stage m.current_message_index m.stage_history

/-- `MonoP` read off a `StageManager`. -/
def StageManager.MonotoneRanges (m : StageManager) : Prop :=
  MonoP m.current_stage m.current_message_index m.stage_history

/-- `OneOpenP` read off a `StageManager`. -/
def StageManager.OneOpen (m : StageManager) : Prop :=
  OneOpenP m.current_stage m.stage_history

/-- Structural invariant of the stage-history bookkeeping, on the relevant
state fields (`cur` = current stage, `idx` = current message index, `hist` =
stage history), for initial offset `i0`: records exist exactly for the contiguous
ordinal range from some initial stage `s0` through `cur`; `s0`'s record starts
at `i0`; consecutive records share their boundary; closed records have
non-negative length; and the current record is open with `start ≤ idx`. -/
def HistInv (i0 : Int) (cur : Stage) (idx : Int) (hist : Stage → Option StageRecord) : Prop :=
  ∃ s0 : Stage,
    s0.ord ≤ cur.ord
    ∧ (∀ s : Stage, (hist s).isSome ↔ (s0.ord ≤ s.ord ∧ s.ord ≤ cur.ord))
    ∧ (∀ r, hist s0 = some r → r.start = i0)
    ∧ (∀ s s' r r', s.next_stage = some s' → hist s = some r → hist s' = some r' →
        r.«end» = r'.start)
    ∧ (∀ s r, hist s = some r → s ≠ cur → r.start ≤ r.«end»)
    ∧ (∀ r, hist cur = some r → r.«end» = -1 ∧ r.start ≤ idx)

/-- States reachable from a freshly constructed `StageManager` with initial
message-index offset `i0` by any sequence of successful `handle_message_add`
and `advance_stage` operations (with arbitrary service and parser behaviour at
each step). -/
inductive Reachable (i0 : Int) : StageManager → Prop where
  | init (stage_config : Stage → Option EvaluationConfig) (evaluator : Evaluator)
      (initial_stage : Stage) :
      Reachable i0 (StageManager.init stage_config evaluator initial_stage i0)
  | msg (m m' : StageManager) (oracle : Oracle) (loads : Loads)
      (message : String) (calls : List String) (hm : Reachable i0 m)
      (h : m.handle_message_add oracle loads message = (calls, .ok m')) :
      Reachable i0 m'
  | adv (m m' : StageManager) (b : Bool) (hm : Reachable i0 m)
      (h : m.advance_stage = .ok (b, m')) :
      Reachable i0 m'

/-! ## Concrete fixtures used by witnesses and counterexamples -/

/-- A concrete `json.loads`: "OK" parses to a conclusive positive reply, "NO"
to `result: false`, "COT" to a reply with no `result` field, everything else
fails to parse. -/
def wLoads : Loads := fun s =>
  if s = "OK" then some (.obj [("chain_of_thought", .str "x"), ("result", .bool true)])
  else if s = "NO" then some (.obj [("chain_of_thought", .str "x"), ("result", .bool false)])
  else if s = "COT" then some (.obj [("chain_of_thought", .str "x")])
  else none

/-- A service stub that always replies "OK". -/
def wOracleOK : Oracle := fun _ => some "OK"

/-- A service stub that always replies "NO". -/
def wOracleNo : Oracle := fun _ => some "NO"

/-- A service stub that always replies "COT". -/
def wOracleCOT : Oracle := fun _ => some "COT"

/-- A service stub whose reply is not JSON under `wLoads`. -/
def wOracleBad : Oracle := fun _ => some "not json"

/-- A stage config with all three stages configured for objective completion. -/
def wConfig : Stage → Option EvaluationConfig := fun s =>
  match s with
  | .pre_contemplation => some (EvaluationConfig.from_objectives ["X"])
  | .contemplation => some (EvaluationConfig.from_objectives ["Y"])
  | .preparation => some (EvaluationConfig.from_objectives ["Z"])

/-- A stage config missing the `contemplation` stage. -/
def wConfigMissing : Stage → Option EvaluationConfig := fun s =>
  match s with
  | .pre_contemplation => some (EvaluationConfig.from_objectives ["X"])
  | .contemplation => none
  | .preparation => none

/-- A concrete evaluator whose clients are freshly constructed. -/
def wEvaluator : Evaluator := ⟨Client.init "sysO", Client.init "sysT"⟩

/-- A concrete manager at the first stage with offset 0. -/
def wManager : StageManager :=
  StageManager.init wConfig wEvaluator .pre_contemplation 0

/-- A concrete manager at the final stage. -/
def wManagerFinal : StageManager :=
  StageManager.init wConfig wEvaluator .preparation 5

/-- A concrete manager at the first stage with the missing-successor config. -/
def wManagerMissing : StageManager :=
  StageManager.init wConfigMissing wEvaluator .pre_contemplation 0

/-! ## Helper lemmas -/

/-- A stage's successor is a different stage, one ordinal later. -/
theorem next_stage_succ {s t : Stage} (h : s.next_stage = some t) :
    s ≠ t ∧ t.ord = s.ord + 1 := by
  revert h
  cases s <;> cases t <;> decide

/-- The successor function is injective on defined values. -/
theorem next_stage_inj {s s' t : Stage} (h : s.next_stage = some t)
    (h' : s'.next_stage = some t) : s = s' := by
  revert h h'
  cases s <;> cases s' <;> cases t <;> decide

/-- `send_message` does not change the stored original system prompt. -/
theorem send_message_system_prompt {oracle : Oracle} {c c' : Client}
    {message response : String} (h : c.send_message oracle message = .ok (response, c')) :
    c'.original_system_prompt = c.original_system_prompt := by
  simp only [Client.send_message] at h
  split at h
  · exact absurd h (by simp)
  · split at h
    · exact absurd h (by simp)
    · cases h
      rfl

/-- `get_eval_result` never returns a value that is falsy in Python's sense:
a falsy `result` field is collapsed into `None`. -/
theorem get_eval_result_truthy {loads : Loads} {response : String}
    {r : Option JsonValue} (h : Evaluator.get_eval_result loads response = .ok r) :
    ∀ v, r = some v → pyTruthy v = true := by
  unfold Evaluator.get_eval_result at h
  split at h
  · cases h
    intro v hv
    exact absurd hv (by simp)
  · split at h
    · cases h
      intro v hv
      cases hv
      assumption
    · cases h
      intro v hv
      exact absurd hv (by simp)
  · exact absurd h (by simp)

/-- Unfolding of `evaluate_objective_completion` as a pair whose first
component is the single service request issued. -/
theorem eval_obj_def (oracle : Oracle) (loads : Loads) (e : Evaluator)
    (objective history : List String) :
    e.evaluate_objective_completion oracle loads objective history
      = ([evalPrompt (dumpsStringList objective) (dumpsStringList history)],
         match e.objective_client.send_message oracle
             (evalPrompt (dumpsStringList objective) (dumpsStringList history)) with
         | .error err => .error err
         | .ok (response, c1) =>
             match Evaluator.get_eval_result loads response with
             | .error err => .error err
             | .ok r => .ok (r, { e with objective_client := c1.reset_conversation })) := by
  cases hs : e.objective_client.send_message oracle
      (evalPrompt (dumpsStringList objective) (dumpsStringList history)) with
  | error err => simp [Evaluator.evaluate_objective_completion, hs]
  | ok p =>
      obtain ⟨response, c1⟩ := p
      cases hg : Evaluator.get_eval_result loads response with
      | error err => simp [Evaluator.evaluate_objective_completion, hs, hg]
      | ok r => simp [Evaluator.evaluate_objective_completion, hs, hg]

/-- The ghost trace of `evaluate_objective_completion` is always exactly the
one eval prompt built from the objective and the history. -/
theorem eval_obj_calls (oracle : Oracle) (loads : Loads) (e : Evaluator)
    (objective history : List String) :
    (e.evaluate_objective_completion oracle loads objective history).1
      = [evalPrompt (dumpsStringList objective) (dumpsStringList history)] := by
  rw [eval_obj_def]

/-- The result component of `evaluate_objective_completion`. -/
theorem eval_obj_result (oracle : Oracle) (loads : Loads) (e : Evaluator)
    (objective history : List String) :
    (e.evaluate_objective_completion oracle loads objective history).2
      = (match e.objective_client.send_message oracle
             (evalPrompt (dumpsStringList objective) (dumpsStringList history)) with
         | .error err => .error err
         | .ok (response, c1) =>
             match Evaluator.get_eval_result loads response with
             | .error err => .error err
             | .ok r => .ok (r, { e with objective_client := c1.reset_conversation })) := by
  rw [eval_obj_def]

/-- Characterization of `evaluate_stage` when the current stage is configured
for objective completion. -/
theorem evaluate_stage_obj (oracle : Oracle) (loads : Loads) (m : StageManager)
    (rec : StageRecord) (objs : List String)
    (hrec : m.stage_history m.current_stage = some rec)
    (hcfg : m.stage_config m.current_stage
      = some ⟨.objective_completion, .objectives objs⟩) :
    m.evaluate_stage oracle loads
      = (match m.evaluator.evaluate_objective_completion oracle loads objs rec.messages with
         | (calls, .error err) => (calls, .error err)
         | (calls, .ok (r, ev)) => (calls, .ok (r, { m with evaluator := ev }))) := by
  unfold StageManager.evaluate_stage
  rw [hcfg, hrec]

/-- `updateHist` at the updated key. -/
theorem updateHist_same (h : Stage → Option StageRecord) (s : Stage) (r : StageRecord) :
    updateHist h s r s = some r := by
  simp [updateHist]

/-- `updateHist` at any other key. -/
theorem updateHist_other (h : Stage → Option StageRecord) (s t : Stage) (r : StageRecord)
    (hne : t ≠ s) : updateHist h s r t = h t := by
  simp [updateHist, hne]

/-- Characterization of a real `advance_stage` transition: close the current
record at the current index, open the successor's record there, move to the
successor, return `True`. -/
theorem advance_stage_eq (m : StageManager) (B : Stage) (cfgB : EvaluationConfig)
    (rec : StageRecord)
    (hnext : m.current_stage.next_stage = some B)
    (hcfgB : m.stage_config B = some cfgB)
    (hrec : m.stage_history m.current_stage = some rec) :
    m.advance_stage = .ok (true,
      { m with
        current_stage := B
        stage_history := updateHist (updateHist m.stage_history m.current_stage
            ⟨rec.start, m.current_message_index, rec.messages⟩) B
          ⟨m.current_message_index, -1, []⟩ }) := by
  have hfin : m.current_stage.is_final_stage = false := by
    simp [Stage.is_final_stage, hnext]
  simp [StageManager.advance_stage, hfin, hnext, hcfgB, hrec]

/-- Characterization of `handle_message_add` when the current stage is
configured for objective completion: the trace is the single eval request over
the log including the new message; the message is appended and the index
bumped; the machine advances exactly when the evaluation result is the JSON
literal `true`. -/
theorem handle_obj_eq (oracle : Oracle) (loads : Loads) (m : StageManager)
    (message : String) (rec : StageRecord) (objs : List String)
    (hrec : m.stage_history m.current_stage = some rec)
    (hcfg : m.stage_config m.current_stage
      = some ⟨.objective_completion, .objectives objs⟩) :
    m.handle_message_add oracle loads message
      = ([evalPrompt (dumpsStringList objs) (dumpsStringList (rec.messages ++ [message]))],
         match (m.evaluator.evaluate_objective_completion oracle loads objs
             (rec.messages ++ [message])).2 with
         | .error err => .error err
         | .ok (r, ev) =>
             let m2 : StageManager :=
               { m with
                 evaluator := ev
                 current_message_index := m.current_message_index + 1
                 stage_history := updateHist m.stage_history m.current_stage
                   ⟨rec.start, rec.«end», rec.messages ++ [message]⟩ }
             match r with
             | some (.bool true) =>
                 (match m2.advance_stage with
                  | .error err => .error err
                  | .ok (_, m3) => .ok m3)
             | _ => .ok m2) := by
  have hup : updateHist m.stage_history m.current_stage
      ⟨rec.start, rec.«end», rec.messages ++ [message]⟩ m.current_stage
      = some ⟨rec.start, rec.«end», rec.messages ++ [message]⟩ := by
    simp [updateHist]
  cases hev : m.evaluator.evaluate_objective_completion oracle loads objs
      (rec.messages ++ [message]) with
  | mk calls res =>
      have hc := eval_obj_calls oracle loads m.evaluator objs (rec.messages ++ [message])
      rw [hev] at hc
      dsimp only at hc
      subst hc
      cases res with
      | error err =>
          simp only [StageManager.handle_message_add, hrec]
          rw [evaluate_stage_obj oracle loads
            { m with
              current_message_index := m.current_message_index + 1
              stage_history := updateHist m.stage_history m.current_stage
                ⟨rec.start, rec.«end», rec.messages ++ [message]⟩ }
            ⟨rec.start, rec.«end», rec.messages ++ [message]⟩ objs hup hcfg]
          dsimp only
          rw [hev]
      | ok p =>
          obtain ⟨r, ev⟩ := p
          simp only [StageManager.handle_message_add, hrec]
          rw [evaluate_stage_obj oracle loads
            { m with
              current_message_index := m.current_message_index + 1
              stage_history := updateHist m.stage_history m.current_stage
                ⟨rec.start, rec.«end», rec.messages ++ [message]⟩ }
            ⟨rec.start, rec.«end», rec.messages ++ [message]⟩ objs hup hcfg]
          dsimp only
          rw [hev]
          dsimp only
          rcases r with _ | v
          · rfl
          · rcases v with _ | b | n | s | xs | fs
            · rfl
            · cases b
              · rfl
              · split <;> first | rfl | (split <;> rfl)
            · rfl
            · rfl
            · rfl
            · rfl

/-- Inversion of a successful `advance_stage`: either a terminal-stage no-op
returning `False`, or a real transition to the configured successor. -/
theorem advance_ok_inversion {m : StageManager} {b : Bool} {m' : StageManager}
    (h : m.advance_stage = .ok (b, m')) :
    (b = false ∧ m' = m ∧ m.current_stage.next_stage = none)
    ∨ ∃ B rec, b = true ∧ m.current_stage.next_stage = some B
        ∧ (m.stage_config B).isSome
        ∧ m.stage_history m.current_stage = some rec
        ∧ m'.current_stage = B
        ∧ m'.current_message_index = m.current_message_index
        ∧ m'.evaluator = m.evaluator
        ∧ m'.stage_config = m.stage_config
        ∧ m'.stage_history = updateHist (updateHist m.stage_history m.current_stage
              ⟨rec.start, m.current_message_index, rec.messages⟩) B
            ⟨m.current_message_index, -1, []⟩ := by
  simp only [StageManager.advance_stage] at h
  split at h
  · rename_i hfin
    injection h with h1
    injection h1 with hb hm
    subst hb
    subst hm
    refine Or.inl ⟨rfl, rfl, ?_⟩
    simpa [Stage.is_final_stage, Option.isNone_iff_eq_none] using hfin
  · split at h
    · rename_i hn
      injection h with h1
      injection h1 with hb hm
      subst hb
      subst hm
      exact Or.inl ⟨rfl, rfl, hn⟩
    · rename_i B hn
      split at h
      · exact absurd h (by simp)
      · rename_i cfg hcfg
        split at h
        · exact absurd h (by simp)
        · rename_i rec hrec
          injection h with h1
          injection h1 with hb hm
          subst hb
          subst hm
          exact Or.inr ⟨B, rec, rfl, hn, by simp [hcfg], hrec, rfl, rfl, rfl, rfl, rfl⟩

/-- Inversion of a successful `evaluate_stage`: the returned manager differs
from the input only in the evaluator. -/
theorem evaluate_stage_ok_inversion {oracle : Oracle} {loads : Loads}
    {m : StageManager} {calls : List String} {r : Option JsonValue} {m2 : StageManager}
    (h : m.evaluate_stage oracle loads = (calls, .ok (r, m2))) :
    m2.current_stage = m.current_stage
    ∧ m2.current_message_index = m.current_message_index
    ∧ m2.stage_history = m.stage_history
    ∧ m2.stage_config = m.stage_config := by
  simp only [StageManager.evaluate_stage] at h
  split at h
  · exact absurd h (by simp)
  · split at h
    · exact absurd h (by simp)
    · split at h
      · split at h
        · split at h
          · exact absurd h (by simp)
          · injection h with h1 h2
            injection h2 with h3
            injection h3 with hr hm
            subst hm
            exact ⟨rfl, rfl, rfl, rfl⟩
        · exact absurd h (by simp)
      · split at h
        · exact absurd h (by simp)
        · rename_i r0 htc
          exact absurd htc (by simp [Evaluator.evaluate_table_comparison])

/-- Inversion of a successful `handle_message_add`: the message is appended
and the index bumped; then either the machine stays in the current stage, or
it closes the current record at the new index and opens the successor's. -/
theorem handle_ok_inversion {oracle : Oracle} {loads : Loads} {m : StageManager}
    {message : String} {calls : List String} {m' : StageManager}
    (h : m.handle_message_add oracle loads message = (calls, .ok m')) :
    ∃ rec, m.stage_history m.current_stage = some rec
      ∧ ((m'.current_stage = m.current_stage
            ∧ m'.current_message_index = m.current_message_index + 1
            ∧ m'.stage_history = updateHist m.stage_history m.current_stage
                ⟨rec.start, rec.«end», rec.messages ++ [message]⟩)
        ∨ ∃ B, m.current_stage.next_stage = some B
            ∧ m'.current_stage = B
            ∧ m'.current_message_index = m.current_message_index + 1
            ∧ m'.stage_history = updateHist (updateHist (updateHist m.stage_history
                  m.current_stage ⟨rec.start, rec.«end», rec.messages ++ [message]⟩)
                  m.current_stage
                  ⟨rec.start, m.current_message_index + 1, rec.messages ++ [message]⟩) B
                ⟨m.current_message_index + 1, -1, []⟩) := by
  simp only [StageManager.handle_message_add] at h
  split at h
  · exact absurd h (by simp)
  · rename_i rec hrec
    refine ⟨rec, hrec, ?_⟩
    split at h
    · exact absurd h (by simp)
    · rename_i calls1 r m2 heval
      have hm2 := evaluate_stage_ok_inversion heval
      obtain ⟨hm2s, hm2i, hm2h, hm2c⟩ := hm2
      split at h
      · -- result is the JSON literal true: advance
        split at h
        · exact absurd h (by simp)
        · rename_i b m3 hadv
          injection h with h1 h2
          injection h2 with h3
          subst h3
          rcases advance_ok_inversion hadv with ⟨hb, rfl, hnone⟩ | ⟨B, rec2, hb, hn, hcfgB, hrec2, hs, hi, hev2, hc2, hh⟩
          · exact Or.inl ⟨hm2s, hm2i, hm2h⟩
          · refine Or.inr ⟨B, ?_, ?_, ?_, ?_⟩
            · rw [hm2s] at hn
              exact hn
            · exact hs
            · rw [hi, hm2i]
            · rw [hh, hm2h, hm2s, hm2i]
              have : rec2 = ⟨rec.start, rec.«end», rec.messages ++ [message]⟩ := by
                rw [hm2h, hm2s] at hrec2
                simpa [updateHist] using hrec2.symm
              rw [this]
      · -- any other result: stay
        injection h with h1 h2
        injection h2 with h3
        subst h3
        exact Or.inl ⟨hm2s, hm2i, hm2h⟩

/-- `Stage.ord` is injective. -/
theorem ord_inj {s t : Stage} (h : s.ord = t.ord) : s = t := by
  revert h
  cases s <;> cases t <;> decide

/-- The invariant holds of a freshly initialized stage history. -/
theorem histInv_init (i0 : Int) (s0 : Stage) :
    HistInv i0 s0 i0 (updateHist (fun _ => none) s0 ⟨i0, -1, []⟩) := by
  refine ⟨s0, le_refl _, ?_, ?_, ?_, ?_, ?_⟩
  · intro s
    by_cases hs : s = s0
    · subst hs
      rw [updateHist_same]
      exact ⟨fun _ => ⟨le_refl _, le_refl _⟩, fun _ => rfl⟩
    · rw [updateHist_other _ _ _ _ hs]
      constructor
      · intro hh
        exact absurd hh (by simp)
      · rintro ⟨h1, h2⟩
        exact absurd (ord_inj (le_antisymm h2 h1)) hs
  · intro r hr
    rw [updateHist_same] at hr
    injection hr with heq
    rw [← heq]
  · intro s s' r r' hnn hr hr'
    have hne := (next_stage_succ hnn).1
    by_cases hs : s = s0
    · have hs' : s' ≠ s0 := fun hh => hne (hs.trans hh.symm)
      rw [updateHist_other _ _ _ _ hs'] at hr'
      exact absurd hr' (by simp)
    · rw [updateHist_other _ _ _ _ hs] at hr
      exact absurd hr (by simp)
  · intro s r hr hne
    by_cases hs : s = s0
    · exact absurd hs hne
    · rw [updateHist_other _ _ _ _ hs] at hr
      exact absurd hr (by simp)
  · intro r hr
    rw [updateHist_same] at hr
    injection hr with heq
    rw [← heq]
    exact ⟨rfl, le_refl _⟩

/-- Appending a message to the current stage's open record (and bumping the
index) preserves the invariant. -/
theorem histInv_append (i0 : Int) (cur : Stage) (idx : Int)
    (hist : Stage → Option StageRecord) (rec : StageRecord) (msgs : List String)
    (hrec : hist cur = some rec)
    (h : HistInv i0 cur idx hist) :
    HistInv i0 cur (idx + 1) (updateHist hist cur ⟨rec.start, rec.«end», msgs⟩) := by
  obtain ⟨s0, hle, hdom, hstart, hadj, hclosed, hopen⟩ := h
  refine ⟨s0, hle, ?_, ?_, ?_, ?_, ?_⟩
  · intro s
    by_cases hs : s = cur
    · subst hs
      rw [updateHist_same]
      exact ⟨fun _ => ⟨hle, le_refl _⟩, fun _ => rfl⟩
    · rw [updateHist_other _ _ _ _ hs]
      exact hdom s
  · intro r hr
    by_cases hs : s0 = cur
    · rw [hs, updateHist_same] at hr
      injection hr with heq
      rw [← heq]
      exact hstart rec (by rw [hs]; exact hrec)
    · rw [updateHist_other _ _ _ _ hs] at hr
      exact hstart r hr
  · intro s s' r r' hnn hr hr'
    have hne' := (next_stage_succ hnn).1
    by_cases hs : s = cur
    · subst hs
      rw [updateHist_same] at hr
      injection hr with heq
      have hs' : s' ≠ s := fun hh => hne' hh.symm
      rw [updateHist_other _ _ _ _ hs'] at hr'
      rw [← heq]
      exact hadj _ s' rec r' hnn hrec hr'
    · rw [updateHist_other _ _ _ _ hs] at hr
      by_cases hs' : s' = cur
      · subst hs'
        rw [updateHist_same] at hr'
        injection hr' with heq'
        rw [← heq']
        exact hadj s _ r rec hnn hr hrec
      · rw [updateHist_other _ _ _ _ hs'] at hr'
        exact hadj s s' r r' hnn hr hr'
  · intro s r hr hne
    rw [updateHist_other _ _ _ _ hne] at hr
    exact hclosed s r hr hne
  · intro r hr
    rw [updateHist_same] at hr
    injection hr with heq
    rw [← heq]
    dsimp only
    have ho := hopen rec hrec
    exact ⟨ho.1, by omega⟩

/-- Closing the current record at the current index and opening the
successor's record there preserves the invariant, with the successor as the
new current stage. -/
theorem histInv_advance (i0 : Int) (cur B : Stage) (idx : Int)
    (hist : Stage → Option StageRecord) (rec : StageRecord)
    (hn : cur.next_stage = some B)
    (hrec : hist cur = some rec)
    (h : HistInv i0 cur idx hist) :
    HistInv i0 B idx
      (updateHist (updateHist hist cur ⟨rec.start, idx, rec.messages⟩) B ⟨idx, -1, []⟩) := by
  obtain ⟨s0, hle, hdom, hstart, hadj, hclosed, hopen⟩ := h
  have hBne : cur ≠ B := (next_stage_succ hn).1
  have hBord : B.ord = cur.ord + 1 := (next_stage_succ hn).2
  refine ⟨s0, by omega, ?_, ?_, ?_, ?_, ?_⟩
  · intro s
    by_cases hsB : s = B
    · subst hsB
      rw [updateHist_same]
      exact ⟨fun _ => ⟨by omega, le_refl _⟩, fun _ => rfl⟩
    · rw [updateHist_other _ _ _ _ hsB]
      by_cases hsc : s = cur
      · subst hsc
        rw [updateHist_same]
        exact ⟨fun _ => ⟨hle, by omega⟩, fun _ => rfl⟩
      · rw [updateHist_other _ _ _ _ hsc]
        rw [hdom s]
        have hsOrd : s.ord ≠ B.ord := fun hh => hsB (ord_inj hh)
        constructor
        · rintro ⟨h1, h2⟩
          exact ⟨h1, by omega⟩
        · rintro ⟨h1, h2⟩
          exact ⟨h1, by omega⟩
  · intro r hr
    have hs0B : s0 ≠ B := fun hh => by rw [hh] at hle; omega
    rw [updateHist_other _ _ _ _ hs0B] at hr
    by_cases hs0c : s0 = cur
    · rw [hs0c, updateHist_same] at hr
      injection hr with heq
      rw [← heq]
      exact hstart rec (by rw [hs0c]; exact hrec)
    · rw [updateHist_other _ _ _ _ hs0c] at hr
      exact hstart r hr
  · intro s s' r r' hnn hr hr'
    by_cases hs'B : s' = B
    · subst hs'B
      have hsc : s = cur := next_stage_inj hnn hn
      subst hsc
      rw [updateHist_same] at hr'
      injection hr' with heq'
      rw [updateHist_other _ _ _ _ hBne, updateHist_same] at hr
      injection hr with heq
      rw [← heq, ← heq']
    · rw [updateHist_other _ _ _ _ hs'B] at hr'
      have hsB : s ≠ B := by
        intro hh
        subst hh
        have hords' : s'.ord = s.ord + 1 := (next_stage_succ hnn).2
        have hs'c : s' ≠ cur := fun hh2 => by rw [hh2] at hords'; omega
        rw [updateHist_other _ _ _ _ hs'c] at hr'
        have := (hdom s').mp (by rw [hr']; rfl)
        omega
      rw [updateHist_other _ _ _ _ hsB] at hr
      by_cases hsc : s = cur
      · subst hsc
        rw [hn] at hnn
        injection hnn with hh
        exact absurd hh.symm hs'B
      · rw [updateHist_other _ _ _ _ hsc] at hr
        by_cases hs'c : s' = cur
        · subst hs'c
          rw [updateHist_same] at hr'
          injection hr' with heq'
          rw [← heq']
          exact hadj s _ r rec hnn hr hrec
        · rw [updateHist_other _ _ _ _ hs'c] at hr'
          exact hadj s s' r r' hnn hr hr'
  · intro s r hr hne
    rw [updateHist_other _ _ _ _ hne] at hr
    by_cases hsc : s = cur
    · subst hsc
      rw [updateHist_same] at hr
      injection hr with heq
      rw [← heq]
      exact (hopen rec hrec).2
    · rw [updateHist_other _ _ _ _ hsc] at hr
      exact hclosed s r hr hsc
  · intro r hr
    rw [updateHist_same] at hr
    injection hr with heq
    rw [← heq]
    exact ⟨rfl, le_refl _⟩

/-- Every reachable manager state satisfies the structural history
invariant. -/
theorem reachable_histInv {i0 : Int} {m : StageManager} (h : Reachable i0 m) :
    HistInv i0 m.current_stage m.current_message_index m.stage_history := by
  induction h with
  | init stage_config evaluator initial_stage =>
      exact histInv_init i0 initial_stage
  | msg m m' oracle loads message calls hm h ih =>
      obtain ⟨rec, hrec, hcase⟩ := handle_ok_inversion h
      rcases hcase with ⟨hs, hi, hh⟩ | ⟨B, hn, hs, hi, hh⟩
      · rw [hs, hi, hh]
        exact histInv_append i0 m.current_stage m.current_message_index
          m.stage_history rec (rec.messages ++ [message]) hrec ih
      · rw [hs, hi, hh]
        exact histInv_advance i0 m.current_stage B (m.current_message_index + 1)
          (updateHist m.stage_history m.current_stage
            ⟨rec.start, rec.«end», rec.messages ++ [message]⟩)
          ⟨rec.start, rec.«end», rec.messages ++ [message]⟩ hn (updateHist_same _ _ _)
          (histInv_append i0 m.current_stage m.current_message_index
            m.stage_history rec (rec.messages ++ [message]) hrec ih)
  | adv m m' b hm h ih =>
      rcases advance_ok_inversion h with ⟨hb, rfl, hnone⟩ | ⟨B, rec, hb, hn, hcfgB, hrec, hs, hi, hev2, hc2, hh⟩
      · exact ih
      · rw [hs, hi, hh]
        exact histInv_advance i0 m.current_stage B m.current_message_index
          m.stage_history rec hn hrec ih

/-- Derivation of the claimed properties when only the current stage has a
record (a single open range). -/
theorem span1_main (i0 idx : Int) (hist : Stage → Option StageRecord)
    (sA : Stage) (rA : StageRecord)
    (hrA : hist sA = some rA)
    (hother : ∀ s, s ≠ sA → hist s = none)
    (hstartA : rA.start = i0)
    (oA2 : rA.start ≤ idx) (oA1 : rA.«end» = -1) :
    TilesP i0 sA idx hist ∧ MonoP sA idx hist ∧ (0 ≤ i0 → OneOpenP sA hist) := by
  have reA : rangeEndP sA idx sA rA = idx := by simp [rangeEndP]
  have hmem : ∀ s r, hist s = some r → s = sA ∧ r = rA := by
    intro s r hr
    by_cases h1 : s = sA
    · subst h1
      rw [hrA] at hr
      injection hr with heq
      exact ⟨rfl, heq.symm⟩
    · rw [hother s h1] at hr
      exact absurd hr (by simp)
  refine ⟨⟨?_, ?_⟩, ?_, ?_⟩
  · intro j
    constructor
    · rintro ⟨h1, h2⟩
      exact ⟨sA, rA, hrA, by omega, by rw [reA]; omega⟩
    · rintro ⟨s, r, hsr, h1, h2⟩
      obtain ⟨hs, hr⟩ := hmem s r hsr
      subst hs
      subst hr
      rw [reA] at h2
      omega
  · intro s r s' r' j hsr hs'r' h1 h2 h3 h4
    obtain ⟨hs, hr⟩ := hmem s r hsr
    obtain ⟨hs', hr'⟩ := hmem s' r' hs'r'
    rw [hs, hs']
  · intro s r s' r' hsr hs'r' hord
    obtain ⟨hs, hr⟩ := hmem s r hsr
    obtain ⟨hs', hr'⟩ := hmem s' r' hs'r'
    subst hs
    subst hs'
    omega
  · intro hi0
    refine ⟨⟨rA, hrA, oA1⟩, ?_⟩
    intro s r hsr hrend
    exact (hmem s r hsr).1

/-- Derivation of the claimed properties for one closed range followed by the
current open range. -/
theorem span2_main (i0 idx : Int) (hist : Stage → Option StageRecord)
    (sA sB : Stage) (rA rB : StageRecord)
    (hAB : sA.next_stage = some sB)
    (hrA : hist sA = some rA) (hrB : hist sB = some rB)
    (hother : ∀ s, s ≠ sA → s ≠ sB → hist s = none)
    (hstartA : rA.start = i0)
    (eAB : rA.«end» = rB.start)
    (cA : rA.start ≤ rA.«end»)
    (oB2 : rB.start ≤ idx) (oB1 : rB.«end» = -1) :
    TilesP i0 sB idx hist ∧ MonoP sB idx hist ∧ (0 ≤ i0 → OneOpenP sB hist) := by
  have hABne : sA ≠ sB := (next_stage_succ hAB).1
  have hordB : sB.ord = sA.ord + 1 := (next_stage_succ hAB).2
  have reA : rangeEndP sB idx sA rA = rA.«end» := by simp [rangeEndP, hABne]
  have reB : rangeEndP sB idx sB rB = idx := by simp [rangeEndP]
  have hmem : ∀ s r, hist s = some r → (s = sA ∧ r = rA) ∨ (s = sB ∧ r = rB) := by
    intro s r hr
    by_cases h1 : s = sA
    · subst h1
      rw [hrA] at hr
      injection hr with heq
      exact Or.inl ⟨rfl, heq.symm⟩
    · by_cases h2 : s = sB
      · subst h2
        rw [hrB] at hr
        injection hr with heq
        exact Or.inr ⟨rfl, heq.symm⟩
      · rw [hother s h1 h2] at hr
        exact absurd hr (by simp)
  refine ⟨⟨?_, ?_⟩, ?_, ?_⟩
  · intro j
    constructor
    · rintro ⟨h1, h2⟩
      by_cases hj1 : j < rB.start
      · exact ⟨sA, rA, hrA, by omega, by rw [reA]; omega⟩
      · exact ⟨sB, rB, hrB, by omega, by rw [reB]; omega⟩
    · rintro ⟨s, r, hsr, h1, h2⟩
      rcases hmem s r hsr with ⟨hs, hr⟩ | ⟨hs, hr⟩ <;> subst hs <;> subst hr
      · rw [reA] at h2
        omega
      · rw [reB] at h2
        omega
  · intro s r s' r' j hsr hs'r' h1 h2 h3 h4
    rcases hmem s r hsr with ⟨hs, hr⟩ | ⟨hs, hr⟩ <;>
      rcases hmem s' r' hs'r' with ⟨hs', hr'⟩ | ⟨hs', hr'⟩ <;>
      subst hs <;> subst hr <;> subst hs' <;> subst hr'
    · rfl
    · rw [reA] at h2
      exfalso
      omega
    · rw [reA] at h4
      exfalso
      omega
    · rfl
  · intro s r s' r' hsr hs'r' hord
    rcases hmem s r hsr with ⟨hs, hr⟩ | ⟨hs, hr⟩ <;>
      rcases hmem s' r' hs'r' with ⟨hs', hr'⟩ | ⟨hs', hr'⟩ <;>
      subst hs <;> subst hr <;> subst hs' <;> subst hr'
    · omega
    · rw [reA]
      exact ⟨by omega, by omega⟩
    · omega
    · omega
  · intro hi0
    refine ⟨⟨rB, hrB, oB1⟩, ?_⟩
    intro s r hsr hrend
    rcases hmem s r hsr with ⟨hs, hr⟩ | ⟨hs, hr⟩ <;> subst hs <;> subst hr
    · exfalso
      omega
    · rfl

/-- Derivation of the claimed properties for two closed ranges followed by the
current open range. -/
theorem span3_main (i0 idx : Int) (hist : Stage → Option StageRecord)
    (sA sB sC : Stage) (rA rB rC : StageRecord)
    (hAB : sA.next_stage = some sB) (hBC : sB.next_stage = some sC)
    (hrA : hist sA = some rA) (hrB : hist sB = some rB) (hrC : hist sC = some rC)
    (hother : ∀ s, s ≠ sA → s ≠ sB → s ≠ sC → hist s = none)
    (hstartA : rA.start = i0)
    (eAB : rA.«end» = rB.start) (eBC : rB.«end» = rC.start)
    (cA : rA.start ≤ rA.«end») (cB : rB.start ≤ rB.«end»)
    (oC2 : rC.start ≤ idx) (oC1 : rC.«end» = -1) :
    TilesP i0 sC idx hist ∧ MonoP sC idx hist ∧ (0 ≤ i0 → OneOpenP sC hist) := by
  have hABne : sA ≠ sB := (next_stage_succ hAB).1
  have hBCne : sB ≠ sC := (next_stage_succ hBC).1
  have hordB : sB.ord = sA.ord + 1 := (next_stage_succ hAB).2
  have hordC : sC.ord = sB.ord + 1 := (next_stage_succ hBC).2
  have hACne : sA ≠ sC := fun hh => by rw [hh] at hordB; omega
  have reA : rangeEndP sC idx sA rA = rA.«end» := by simp [rangeEndP, hACne]
  have reB : rangeEndP sC idx sB rB = rB.«end» := by simp [rangeEndP, hBCne]
  have reC : rangeEndP sC idx sC rC = idx := by simp [rangeEndP]
  have hmem : ∀ s r, hist s = some r →
      (s = sA ∧ r = rA) ∨ (s = sB ∧ r = rB) ∨ (s = sC ∧ r = rC) := by
    intro s r hr
    by_cases h1 : s = sA
    · subst h1
      rw [hrA] at hr
      injection hr with heq
      exact Or.inl ⟨rfl, heq.symm⟩
    · by_cases h2 : s = sB
      · subst h2
        rw [hrB] at hr
        injection hr with heq
        exact Or.inr (Or.inl ⟨rfl, heq.symm⟩)
      · by_cases h3 : s = sC
        · subst h3
          rw [hrC] at hr
          injection hr with heq
          exact Or.inr (Or.inr ⟨rfl, heq.symm⟩)
        · rw [hother s h1 h2 h3] at hr
          exact absurd hr (by simp)
  refine ⟨⟨?_, ?_⟩, ?_, ?_⟩
  · intro j
    constructor
    · rintro ⟨h1, h2⟩
      by_cases hj1 : j < rB.start
      · exact ⟨sA, rA, hrA, by omega, by rw [reA]; omega⟩
      · by_cases hj2 : j < rC.start
        · exact ⟨sB, rB, hrB, by omega, by rw [reB]; omega⟩
        · exact ⟨sC, rC, hrC, by omega, by rw [reC]; omega⟩
    · rintro ⟨s, r, hsr, h1, h2⟩
      rcases hmem s r hsr with ⟨hs, hr⟩ | ⟨hs, hr⟩ | ⟨hs, hr⟩ <;> subst hs <;> subst hr
      · rw [reA] at h2
        omega
      · rw [reB] at h2
        omega
      · rw [reC] at h2
        omega
  · intro s r s' r' j hsr hs'r' h1 h2 h3 h4
    rcases hmem s r hsr with ⟨hs, hr⟩ | ⟨hs, hr⟩ | ⟨hs, hr⟩ <;>
      rcases hmem s' r' hs'r' with ⟨hs', hr'⟩ | ⟨hs', hr'⟩ | ⟨hs', hr'⟩ <;>
      subst hs <;> subst hr <;> subst hs' <;> subst hr'
    · rfl
    · rw [reA] at h2
      exfalso
      omega
    · rw [reA] at h2
      exfalso
      omega
    · rw [reA] at h4
      exfalso
      omega
    · rfl
    · rw [reB] at h2
      exfalso
      omega
    · rw [reA] at h4
      exfalso
      omega
    · rw [reB] at h4
      exfalso
      omega
    · rfl
  · intro s r s' r' hsr hs'r' hord
    rcases hmem s r hsr with ⟨hs, hr⟩ | ⟨hs, hr⟩ | ⟨hs, hr⟩ <;>
      rcases hmem s' r' hs'r' with ⟨hs', hr'⟩ | ⟨hs', hr'⟩ | ⟨hs', hr'⟩ <;>
      subst hs <;> subst hr <;> subst hs' <;> subst hr'
    · omega
    · rw [reA]
      exact ⟨by omega, by omega⟩
    · rw [reA]
      exact ⟨by omega, by omega⟩
    · omega
    · omega
    · rw [reB]
      exact ⟨by omega, by omega⟩
    · omega
    · omega
    · omega
  · intro hi0
    refine ⟨⟨rC, hrC, oC1⟩, ?_⟩
    intro s r hsr hrend
    rcases hmem s r hsr with ⟨hs, hr⟩ | ⟨hs, hr⟩ | ⟨hs, hr⟩ <;> subst hs <;> subst hr
    · exfalso
      omega
    · exfalso
      omega
    · rfl

/-- The structural invariant implies the three claimed properties: exact
tiling of `[i0, idx)`, range monotonicity in stage ordinal, and — for a
non-negative initial offset — uniqueness of the open sentinel. -/
theorem histInv_main (i0 : Int) (cur : Stage) (idx : Int)
    (hist : Stage → Option StageRecord)
    (h : HistInv i0 cur idx hist) :
    TilesP i0 cur idx hist ∧ MonoP cur idx hist ∧ (0 ≤ i0 → OneOpenP cur hist) := by
  obtain ⟨s0, hle, hdom, hstart, hadj, hclosed, hopen⟩ := h
  have hsome : ∀ s : Stage, s0.ord ≤ s.ord → s.ord ≤ cur.ord → ∃ r, hist s = some r := by
    intro s h1 h2
    exact Option.isSome_iff_exists.mp ((hdom s).mpr ⟨h1, h2⟩)
  have hnone : ∀ s : Stage, ¬(s0.ord ≤ s.ord ∧ s.ord ≤ cur.ord) → hist s = none := by
    intro s hc
    rcases hh : hist s with _ | r
    · rfl
    · exact absurd ((hdom s).mp (by rw [hh]; rfl)) hc
  cases s0 <;> cases cur
  · -- pre_contemplation to pre_contemplation
    obtain ⟨r0, hr0⟩ := hsome .pre_contemplation (by decide) (by decide)
    exact span1_main i0 idx hist .pre_contemplation r0 hr0
      (fun s hs => hnone s (by cases s <;> first | exact absurd rfl hs | decide))
      (hstart r0 hr0) (hopen r0 hr0).2 (hopen r0 hr0).1
  · -- pre_contemplation to contemplation
    obtain ⟨r0, hr0⟩ := hsome .pre_contemplation (by decide) (by decide)
    obtain ⟨r1, hr1⟩ := hsome .contemplation (by decide) (by decide)
    exact span2_main i0 idx hist .pre_contemplation .contemplation r0 r1 rfl hr0 hr1
      (fun s hs1 hs2 => hnone s
        (by cases s <;> first | exact absurd rfl hs1 | exact absurd rfl hs2 | decide))
      (hstart r0 hr0)
      (hadj .pre_contemplation .contemplation r0 r1 rfl hr0 hr1)
      (hclosed .pre_contemplation r0 hr0 (by decide))
      (hopen r1 hr1).2 (hopen r1 hr1).1
  · -- pre_contemplation to preparation
    obtain ⟨r0, hr0⟩ := hsome .pre_contemplation (by decide) (by decide)
    obtain ⟨r1, hr1⟩ := hsome .contemplation (by decide) (by decide)
    obtain ⟨r2, hr2⟩ := hsome .preparation (by decide) (by decide)
    exact span3_main i0 idx hist .pre_contemplation .contemplation .preparation r0 r1 r2
      rfl rfl hr0 hr1 hr2
      (fun s hs1 hs2 hs3 => by
        cases s
        · exact absurd rfl hs1
        · exact absurd rfl hs2
        · exact absurd rfl hs3)
      (hstart r0 hr0)
      (hadj .pre_contemplation .contemplation r0 r1 rfl hr0 hr1)
      (hadj .contemplation .preparation r1 r2 rfl hr1 hr2)
      (hclosed .pre_contemplation r0 hr0 (by decide))
      (hclosed .contemplation r1 hr1 (by decide))
      (hopen r2 hr2).2 (hopen r2 hr2).1
  · -- contemplation to pre_contemplation: impossible
    exact absurd hle (by decide)
  · -- contemplation to contemplation
    obtain ⟨r1, hr1⟩ := hsome .contemplation (by decide) (by decide)
    exact span1_main i0 idx hist .contemplation r1 hr1
      (fun s hs => hnone s (by cases s <;> first | exact absurd rfl hs | decide))
      (hstart r1 hr1) (hopen r1 hr1).2 (hopen r1 hr1).1
  · -- contemplation to preparation
    obtain ⟨r1, hr1⟩ := hsome .contemplation (by decide) (by decide)
    obtain ⟨r2, hr2⟩ := hsome .preparation (by decide) (by decide)
    exact span2_main i0 idx hist .contemplation .preparation r1 r2 rfl hr1 hr2
      (fun s hs1 hs2 => hnone s
        (by cases s <;> first | exact absurd rfl hs1 | exact absurd rfl hs2 | decide))
      (hstart r1 hr1)
      (hadj .contemplation .preparation r1 r2 rfl hr1 hr2)
      (hclosed .contemplation r1 hr1 (by decide))
      (hopen r2 hr2).2 (hopen r2 hr2).1
  · -- preparation to pre_contemplation: impossible
    exact absurd hle (by decide)
  · -- preparation to contemplation: impossible
    exact absurd hle (by decide)
  · -- preparation to preparation
    obtain ⟨r2, hr2⟩ := hsome .preparation (by decide) (by decide)
    exact span1_main i0 idx hist .preparation r2 hr2
      (fun s hs => hnone s (by cases s <;> first | exact absurd rfl hs | decide))
      (hstart r2 hr2) (hopen r2 hr2).2 (hopen r2 hr2).1

/-! ## Claims -/

/-- C7: calling `evaluate_table_comparison` with any table data and any
history always raises `NotImplementedError`; it never returns a boolean or
Unknown, and the raised signal is distinct from every returned judgment. -/
theorem C7_table_comparison_always_raises {α : Type} (table : α) (history : List String) :
    Evaluator.evaluate_table_comparison table history
        = .error (.notImplementedError "Table Comparison method not implemented")
      ∧ ∀ r : Option JsonValue, Evaluator.evaluate_table_comparison table history ≠ .ok r := by
  refine ⟨rfl, ?_⟩
  intro r h
  exact absurd h (by simp [Evaluator.evaluate_table_comparison])

/-- C8: advancing from the terminal stage is a no-op returning `False`: the
whole manager state (current stage, stage history, message index) is
unchanged and no error is raised. -/
theorem C8_advance_at_final_noop (m : StageManager)
    (h : m.current_stage.is_final_stage = true) :
    m.advance_stage = .ok (false, m) := by
  unfold StageManager.advance_stage
  simp [h]

/-- Witness for C8 at a concrete manager sitting at the final stage. -/
theorem C8_witness :
    wManagerFinal.current_stage.is_final_stage = true
      ∧ wManagerFinal.advance_stage = .ok (false, wManagerFinal) :=
  ⟨rfl, C8_advance_at_final_noop wManagerFinal rfl⟩

/-- C3: `evaluate_objective_completion` never returns the conclusive negative
`False`: any returned judgment is Unknown (`none`) or a Python-truthy `result`
value, and a well-formed reply whose `result` field is falsy (including
`result: false`) yields Unknown. -/
theorem C3_no_conclusive_negative (oracle : Oracle) (loads : Loads) (e : Evaluator)
    (objective history : List String) :
    (∀ r ev, (e.evaluate_objective_completion oracle loads objective history).2 = .ok (r, ev) →
        r ≠ some (JsonValue.bool false) ∧ ∀ v, r = some v → pyTruthy v = true)
    ∧ ∀ response c1 fields,
        e.objective_client.send_message oracle
            (evalPrompt (dumpsStringList objective) (dumpsStringList history))
          = .ok (response, c1) →
        loads response = some (.obj fields) →
        pyTruthy (dictGet fields "result") = false →
        (e.evaluate_objective_completion oracle loads objective history).2
          = .ok (none, { e with objective_client := c1.reset_conversation }) := by
  constructor
  · intro r ev h
    rw [eval_obj_result] at h
    cases hs : e.objective_client.send_message oracle
        (evalPrompt (dumpsStringList objective) (dumpsStringList history)) with
    | error err =>
        rw [hs] at h
        exact absurd h (by simp)
    | ok p =>
        obtain ⟨response, c1⟩ := p
        rw [hs] at h
        dsimp only at h
        cases hg : Evaluator.get_eval_result loads response with
        | error err =>
            rw [hg] at h
            exact absurd h (by simp)
        | ok r0 =>
            rw [hg] at h
            simp only [Except.ok.injEq, Prod.mk.injEq] at h
            obtain ⟨hr, hev⟩ := h
            subst hr
            have ht := get_eval_result_truthy hg
            refine ⟨?_, ht⟩
            intro hfalse
            have := ht _ hfalse
            simp [pyTruthy] at this
  · intro response c1 fields hsend hobj hfalse
    rw [eval_obj_result, hsend]
    have hg : Evaluator.get_eval_result loads response = .ok none := by
      simp [Evaluator.get_eval_result, hobj, hfalse]
    simp [hg]

/-- Witness for C3: a stub that replies `result: false` makes the evaluation
return Unknown, not `False`. -/
theorem C3_witness :
    (wEvaluator.evaluate_objective_completion wOracleNo wLoads ["X"] ["hello"]).2
      = .ok (none, wEvaluator) := by
  exact (C3_no_conclusive_negative wOracleNo wLoads wEvaluator ["X"] ["hello"]).2
    "NO"
    ⟨"sysO", [⟨"system", "sysO"⟩,
      ⟨"user", evalPrompt (dumpsStringList ["X"]) (dumpsStringList ["hello"])⟩,
      ⟨"assistant", "NO"⟩]⟩
    [("chain_of_thought", .str "x"), ("result", .bool false)]
    rfl rfl rfl

/-- C4: a reply that does not parse as JSON, or parses to an object whose
`result` field is absent or falsy, makes `evaluate_objective_completion`
return Unknown (`None`) rather than raising. -/
theorem C4_malformed_reply_is_unknown (oracle : Oracle) (loads : Loads) (e : Evaluator)
    (objective history : List String) (response : String) (c1 : Client)
    (hsend : e.objective_client.send_message oracle
        (evalPrompt (dumpsStringList objective) (dumpsStringList history))
      = .ok (response, c1))
    (hbad : loads response = none
        ∨ ∃ fields, loads response = some (.obj fields)
            ∧ pyTruthy (dictGet fields "result") = false) :
    (e.evaluate_objective_completion oracle loads objective history).2
      = .ok (none, { e with objective_client := c1.reset_conversation }) := by
  rw [eval_obj_result, hsend]
  have hg : Evaluator.get_eval_result loads response = .ok none := by
    rcases hbad with hb | ⟨fields, hf, hfalse⟩
    · simp [Evaluator.get_eval_result, hb]
    · simp [Evaluator.get_eval_result, hf, hfalse]
  simp [hg]

/-- Witness for C4: a reply that is not JSON yields Unknown. -/
theorem C4_witness :
    (wEvaluator.evaluate_objective_completion wOracleBad wLoads ["X"] ["hello"]).2
      = .ok (none, wEvaluator) := by
  exact C4_malformed_reply_is_unknown wOracleBad wLoads wEvaluator ["X"] ["hello"]
    "not json"
    ⟨"sysO", [⟨"system", "sysO"⟩,
      ⟨"user", evalPrompt (dumpsStringList ["X"]) (dumpsStringList ["hello"])⟩,
      ⟨"assistant", "not json"⟩]⟩
    rfl (Or.inl rfl)

/-- C10: whenever `evaluate_objective_completion` returns normally, the
objective-completion client's conversation history afterwards is exactly the
singleton original system prompt: the evaluation channel's accumulated state
is discarded before returning. -/
theorem C10_eval_channel_reset (oracle : Oracle) (loads : Loads) (e : Evaluator)
    (objective history : List String) (r : Option JsonValue) (e' : Evaluator)
    (h : (e.evaluate_objective_completion oracle loads objective history).2 = .ok (r, e')) :
    e'.objective_client.chat_prompt
        = [⟨"system", e.objective_client.original_system_prompt⟩]
      ∧ e'.objective_client.original_system_prompt
        = e.objective_client.original_system_prompt := by
  rw [eval_obj_result] at h
  cases hs : e.objective_client.send_message oracle
      (evalPrompt (dumpsStringList objective) (dumpsStringList history)) with
  | error err =>
      rw [hs] at h
      exact absurd h (by simp)
  | ok p =>
      obtain ⟨response, c1⟩ := p
      rw [hs] at h
      dsimp only at h
      cases hg : Evaluator.get_eval_result loads response with
      | error err =>
          rw [hg] at h
          exact absurd h (by simp)
      | ok r0 =>
          rw [hg] at h
          simp only [Except.ok.injEq, Prod.mk.injEq] at h
          obtain ⟨hr, hev⟩ := h
          subst hev
          have hsys := send_message_system_prompt hs
          exact ⟨by simp [Client.reset_conversation, hsys], by simp [Client.reset_conversation, hsys]⟩

/-- Witness for C10 at a concrete evaluation call. -/
theorem C10_witness :
    wEvaluator.objective_client.chat_prompt
        = [⟨"system", wEvaluator.objective_client.original_system_prompt⟩]
      ∧ wEvaluator.objective_client.original_system_prompt
        = wEvaluator.objective_client.original_system_prompt := by
  exact C10_eval_channel_reset wOracleOK wLoads wEvaluator ["X"] ["hello"]
    (some (.bool true)) wEvaluator rfl

/-- C1: when the current stage has a configured successor and the evaluation
triggered by `handle_message_add` returns the conclusive positive judgment,
the manager moves to the successor; the old stage's record is closed with end
index equal to the message-index value at closure time, and the successor's
record is newly open at that same value with the `-1` sentinel and an empty
message list. -/
theorem C1_positive_judgment_advances (oracle : Oracle) (loads : Loads)
    (m : StageManager) (message : String) (B : Stage) (cfgB : EvaluationConfig)
    (rec : StageRecord) (objs : List String) (ev' : Evaluator)
    (hnext : m.current_stage.next_stage = some B)
    (hcfgB : m.stage_config B = some cfgB)
    (hrec : m.stage_history m.current_stage = some rec)
    (hcfg : m.stage_config m.current_stage
      = some ⟨.objective_completion, .objectives objs⟩)
    (heval : (m.evaluator.evaluate_objective_completion oracle loads objs
        (rec.messages ++ [message])).2 = .ok (some (.bool true), ev')) :
    ∃ m', m.handle_message_add oracle loads message
        = ([evalPrompt (dumpsStringList objs) (dumpsStringList (rec.messages ++ [message]))],
           .ok m')
      ∧ m'.current_stage = B
      ∧ m'.current_message_index = m.current_message_index + 1
      ∧ m'.stage_history m.current_stage
          = some ⟨rec.start, m.current_message_index + 1, rec.messages ++ [message]⟩
      ∧ m'.stage_history B = some ⟨m.current_message_index + 1, -1, []⟩ := by
  have hne : m.current_stage ≠ B := (next_stage_succ hnext).1
  rw [handle_obj_eq oracle loads m message rec objs hrec hcfg, heval]
  dsimp only
  rw [advance_stage_eq
    { m with
      evaluator := ev'
      current_message_index := m.current_message_index + 1
      stage_history := updateHist m.stage_history m.current_stage
        ⟨rec.start, rec.«end», rec.messages ++ [message]⟩ }
    B cfgB ⟨rec.start, rec.«end», rec.messages ++ [message]⟩ hnext hcfgB
    (updateHist_same _ _ _)]
  refine ⟨_, rfl, rfl, rfl, ?_, ?_⟩
  · dsimp only
    rw [updateHist_other _ _ _ _ hne, updateHist_same]
  · dsimp only
    rw [updateHist_same]

/-- Witness for C1: the spec's own scenario (stub replying `result: true`),
at the first stage with offset 0. -/
theorem C1_witness :
    ∃ m', wManager.handle_message_add wOracleOK wLoads "hello"
        = ([evalPrompt (dumpsStringList ["X"])
              (dumpsStringList (([] : List String) ++ ["hello"]))], .ok m')
      ∧ m'.current_stage = Stage.contemplation
      ∧ m'.current_message_index = wManager.current_message_index + 1
      ∧ m'.stage_history wManager.current_stage
          = some ⟨(0 : Int), wManager.current_message_index + 1, ([] : List String) ++ ["hello"]⟩
      ∧ m'.stage_history Stage.contemplation
          = some ⟨wManager.current_message_index + 1, -1, []⟩ :=
  C1_positive_judgment_advances wOracleOK wLoads wManager "hello" .contemplation
    (EvaluationConfig.from_objectives ["Y"]) ⟨0, -1, []⟩ ["X"] wEvaluator
    rfl rfl rfl rfl rfl

/-- C5: a negative or Unknown judgment (any evaluation result other than the
JSON literal `true`) leaves the current stage unchanged, closes or creates no
record, raises nothing, and changes only the current stage's message list and
the message index. -/
theorem C5_non_positive_stays (oracle : Oracle) (loads : Loads)
    (m : StageManager) (message : String) (rec : StageRecord) (objs : List String)
    (r : Option JsonValue) (ev' : Evaluator)
    (hrec : m.stage_history m.current_stage = some rec)
    (hcfg : m.stage_config m.current_stage
      = some ⟨.objective_completion, .objectives objs⟩)
    (heval : (m.evaluator.evaluate_objective_completion oracle loads objs
        (rec.messages ++ [message])).2 = .ok (r, ev'))
    (hneg : r ≠ some (JsonValue.bool true)) :
    ∃ m', m.handle_message_add oracle loads message
        = ([evalPrompt (dumpsStringList objs) (dumpsStringList (rec.messages ++ [message]))],
           .ok m')
      ∧ m'.current_stage = m.current_stage
      ∧ m'.current_message_index = m.current_message_index + 1
      ∧ m'.stage_history m.current_stage
          = some ⟨rec.start, rec.«end», rec.messages ++ [message]⟩
      ∧ ∀ s, s ≠ m.current_stage → m'.stage_history s = m.stage_history s := by
  rw [handle_obj_eq oracle loads m message rec objs hrec hcfg, heval]
  dsimp only
  rcases r with _ | v
  · exact ⟨_, rfl, rfl, rfl, updateHist_same _ _ _, fun s hs => updateHist_other _ _ _ _ hs⟩
  · rcases v with _ | b | n | str | xs | fs
    · exact ⟨_, rfl, rfl, rfl, updateHist_same _ _ _, fun s hs => updateHist_other _ _ _ _ hs⟩
    · cases b
      · exact ⟨_, rfl, rfl, rfl, updateHist_same _ _ _, fun s hs => updateHist_other _ _ _ _ hs⟩
      · exact absurd rfl hneg
    · exact ⟨_, rfl, rfl, rfl, updateHist_same _ _ _, fun s hs => updateHist_other _ _ _ _ hs⟩
    · exact ⟨_, rfl, rfl, rfl, updateHist_same _ _ _, fun s hs => updateHist_other _ _ _ _ hs⟩
    · exact ⟨_, rfl, rfl, rfl, updateHist_same _ _ _, fun s hs => updateHist_other _ _ _ _ hs⟩
    · exact ⟨_, rfl, rfl, rfl, updateHist_same _ _ _, fun s hs => updateHist_other _ _ _ _ hs⟩

/-- Witness for C5: a stub replying without a `result` field (Unknown) leaves
the manager in the first stage. -/
theorem C5_witness :
    ∃ m', wManager.handle_message_add wOracleCOT wLoads "hello"
        = ([evalPrompt (dumpsStringList ["X"])
              (dumpsStringList (([] : List String) ++ ["hello"]))], .ok m')
      ∧ m'.current_stage = wManager.current_stage
      ∧ m'.current_message_index = wManager.current_message_index + 1
      ∧ m'.stage_history wManager.current_stage
          = some ⟨(0 : Int), (-1 : Int), ([] : List String) ++ ["hello"]⟩
      ∧ ∀ s, s ≠ wManager.current_stage →
          m'.stage_history s = wManager.stage_history s :=
  C5_non_positive_stays wOracleCOT wLoads wManager "hello" ⟨0, -1, []⟩ ["X"]
    none wEvaluator rfl rfl rfl (by simp)

/-- C9: `handle_message_add` issues exactly one evaluation request, whose
judged log already contains the just-added message (the message is recorded
before evaluation runs), and every successful call increments the message
index by exactly 1, whether or not a transition occurs. -/
theorem C9_index_increment_and_eval_order (oracle : Oracle) (loads : Loads)
    (m : StageManager) (message : String) (rec : StageRecord) (objs : List String)
    (hrec : m.stage_history m.current_stage = some rec)
    (hcfg : m.stage_config m.current_stage
      = some ⟨.objective_completion, .objectives objs⟩) :
    (m.handle_message_add oracle loads message).1
        = [evalPrompt (dumpsStringList objs) (dumpsStringList (rec.messages ++ [message]))]
      ∧ ∀ calls m', m.handle_message_add oracle loads message = (calls, .ok m') →
          m'.current_message_index = m.current_message_index + 1 := by
  constructor
  · rw [handle_obj_eq oracle loads m message rec objs hrec hcfg]
  · intro calls m' h
    obtain ⟨rec2, hrec2, hcase⟩ := handle_ok_inversion h
    rcases hcase with ⟨_, hidx, _⟩ | ⟨B, _, _, hidx, _⟩
    · exact hidx
    · exact hidx

/-- Witness for C9 at the spec scenario fixtures. -/
theorem C9_witness :
    (wManager.handle_message_add wOracleOK wLoads "hello").1
        = [evalPrompt (dumpsStringList ["X"])
            (dumpsStringList (([] : List String) ++ ["hello"]))]
      ∧ ∀ calls m', wManager.handle_message_add wOracleOK wLoads "hello" = (calls, .ok m') →
          m'.current_message_index = wManager.current_message_index + 1 :=
  C9_index_increment_and_eval_order wOracleOK wLoads wManager "hello" ⟨0, -1, []⟩ ["X"]
    rfl rfl

/-- C6: when the successor of the current stage is absent from the stage
config, a direct `advance_stage` raises `ValueError` at once, and a positive
judgment inside `handle_message_add` also ends in that `ValueError`, the only
completion-service request issued being the current stage's own evaluation
(none is built from the successor's configuration). -/
theorem C6_missing_successor_raises (oracle : Oracle) (loads : Loads)
    (m : StageManager) (message : String) (B : Stage)
    (rec : StageRecord) (objs : List String) (ev' : Evaluator)
    (hnext : m.current_stage.next_stage = some B)
    (hnocfg : m.stage_config B = none)
    (hrec : m.stage_history m.current_stage = some rec)
    (hcfg : m.stage_config m.current_stage
      = some ⟨.objective_completion, .objectives objs⟩)
    (heval : (m.evaluator.evaluate_objective_completion oracle loads objs
        (rec.messages ++ [message])).2 = .ok (some (.bool true), ev')) :
    m.advance_stage = .error (.valueError "Next stage is not configured in stage_config")
    ∧ m.handle_message_add oracle loads message
        = ([evalPrompt (dumpsStringList objs) (dumpsStringList (rec.messages ++ [message]))],
           .error (.valueError "Next stage is not configured in stage_config")) := by
  have hfin : m.current_stage.is_final_stage = false := by
    simp [Stage.is_final_stage, hnext]
  constructor
  · simp [StageManager.advance_stage, hfin, hnext, hnocfg]
  · rw [handle_obj_eq oracle loads m message rec objs hrec hcfg, heval]
    dsimp only
    have hadv : StageManager.advance_stage
        { m with
          evaluator := ev'
          current_message_index := m.current_message_index + 1
          stage_history := updateHist m.stage_history m.current_stage
            ⟨rec.start, rec.«end», rec.messages ++ [message]⟩ }
        = .error (.valueError "Next stage is not configured in stage_config") := by
      simp [StageManager.advance_stage, hfin, hnext, hnocfg]
    rw [hadv]

/-- Witness for C6 with a config missing the second stage. -/
theorem C6_witness :
    wManagerMissing.advance_stage
        = .error (.valueError "Next stage is not configured in stage_config")
      ∧ wManagerMissing.handle_message_add wOracleOK wLoads "hello"
          = ([evalPrompt (dumpsStringList ["X"])
                (dumpsStringList (([] : List String) ++ ["hello"]))],
             .error (.valueError "Next stage is not configured in stage_config")) :=
  C6_missing_successor_raises wOracleOK wLoads wManagerMissing "hello" .contemplation
    ⟨0, -1, []⟩ ["X"] wEvaluator rfl rfl rfl rfl rfl

/-- C2 (amended): in every reachable manager state the records' ranges exactly
tile the index interval from the initial offset to the current index with no
gaps or overlaps, and are monotonically non-decreasing in stage ordinal; and,
provided the initial message-index offset is non-negative, exactly one record
(the current stage's) carries the `-1` open sentinel. -/
theorem C2_tiling_invariant (i0 : Int) (m : StageManager) (h : Reachable i0 m) :
    m.Tiles i0 ∧ m.MonotoneRanges ∧ (0 ≤ i0 → m.OneOpen) :=
  histInv_main i0 m.current_stage m.current_message_index m.stage_history
    (reachable_histInv h)

/-- Witness for C2 at the freshly initialized concrete manager. -/
theorem C2_witness :
    wManager.Tiles 0 ∧ wManager.MonotoneRanges ∧ ((0 : Int) ≤ 0 → wManager.OneOpen) :=
  C2_tiling_invariant 0 wManager (Reachable.init wConfig wEvaluator .pre_contemplation)

/-- Counterexample to C2 as stated: with a negative initial offset (-1), one
legal `advance_stage` closes the first record at index -1, so a closed record
carries the `-1` sentinel alongside the new open record, and the
"exactly one open record" conjunct fails in a reachable state. -/
theorem C2_counterexample :
    ∃ m', Reachable (-1) m'
      ∧ (StageManager.init wConfig wEvaluator .pre_contemplation (-1)).advance_stage
          = .ok (true, m')
      ∧ ¬ m'.OneOpen := by
  refine ⟨_, Reachable.adv _ _ true
    (Reachable.init wConfig wEvaluator .pre_contemplation) rfl, rfl, ?_⟩
  intro hOne
  obtain ⟨_, huniq⟩ := hOne
  exact absurd (huniq .pre_contemplation ⟨-1, -1, []⟩ rfl rfl) (by decide)

end CogniLLM
